import Mathlib

/-!
Verification of the research-tool backend (document upload / analyze pipeline).

JavaScript strings are modeled as lists of characters (`Str`).  Machine
integers of the source are modeled as `Nat` (all the quantities involved are
character or byte counts and never overflow in the source).  External
collaborators (the network, the Cloudinary store, the Gemini model) are
modeled as explicit oracle parameters; fallible calls return `Except`.
-/

namespace ResearchTool

/-- A JavaScript string, modeled as its list of characters. -/
abbrev Str := List Char

/-- Character list of a Lean string literal. -/
def strL (s : String) : Str := s.toList

/-- The JavaScript regular-expression class `\s` (also the character set
removed by `String.prototype.trim`): space, tab, line feed, vertical tab,
form feed, carriage return, NBSP and the other Unicode space separators,
line/paragraph separators, and the BOM. -/
def isJsSpace (c : Char) : Bool :=
  c = ' ' || c = '\t' || c = '\n' || c.toNat = 11 || c.toNat = 12 || c = '\r' ||
  c.toNat = 0xa0 || c.toNat = 0x1680 ||
  (0x2000 ≤ c.toNat && c.toNat ≤ 0x200a) ||
  c.toNat = 0x2028 || c.toNat = 0x2029 || c.toNat = 0x202f ||
  c.toNat = 0x205f || c.toNat = 0x3000 || c.toNat = 0xfeff

/-- Leading-whitespace removal (the left half of `String.prototype.trim`). -/
def trimL (s : Str) : Str := s.dropWhile isJsSpace

/-- Trailing-whitespace removal (the right half of `String.prototype.trim`). -/
def trimR : Str → Str
  | [] => []
  | c :: t =>
    let r := trimR t
    if r.isEmpty && isJsSpace c then [] else c :: r

/-- Model of `String.prototype.trim`. -/
def jsTrim (s : Str) : Str := trimR (trimL s)

/-- Model of `String.prototype.toLowerCase` (the source only lowercases
ASCII message text, where `Char.toLower` agrees with JavaScript). -/
def lowerStr (s : Str) : Str := s.map Char.toLower

/-- Model of `String.prototype.includes`: the needle occurs contiguously in
the haystack. -/
def strHas : Str → Str → Bool
  | hay, needle =>
    match hay with
    | [] => needle.isEmpty
    | _ :: t => needle.isPrefixOf hay || strHas t needle

/-- `getSignalLength` from the server (`src/unnamed/part_000`):
`(value || "").replace(/\s+/g, "").length`, i.e. the number of characters of
the input left after deleting every `\s` character. -/
def getSignalLength (s : Str) : Nat :=
  (s.filter (fun c => !isJsSpace c)).length

/-- The head of `trimL` is never whitespace. -/
theorem trimL_head {s : Str} {c : Char} {t : Str} (h : trimL s = c :: t) :
    isJsSpace c = false := by
  induction s with
  | nil => simp [trimL] at h
  | cons a b ih =>
    by_cases ha : isJsSpace a
    · exact ih (by simpa [trimL, ha] using h)
    · simp [trimL, ha] at h
      simp [← h.1, ha]

/-- `trimR` either empties a cons cell or keeps its head. -/
theorem trimR_cons (c : Char) (t : Str) :
    trimR (c :: t) = [] ∨ ∃ r, trimR (c :: t) = c :: r := by
  by_cases h : (trimR t).isEmpty && isJsSpace c
  · left; simp [trimR, h]
  · right; exact ⟨trimR t, by simp [trimR, h]⟩

/-- `trimR` is idempotent. -/
theorem trimR_idem (s : Str) : trimR (trimR s) = trimR s := by
  induction s with
  | nil => rfl
  | cons c t ih =>
    by_cases h : (trimR t).isEmpty && isJsSpace c
    · simp [trimR, h]
    · have hexp : trimR (c :: t) = c :: trimR t := by simp [trimR, h]
      rw [hexp]
      show trimR (c :: trimR t) = c :: trimR t
      have h2 : ¬((trimR (trimR t)).isEmpty && isJsSpace c) := by
        rw [ih]; exact h
      simp only [trimR, ih]
      simp only [Bool.and_eq_true] at h2
      by_cases he : (trimR t).isEmpty <;> by_cases hc : isJsSpace c <;>
        simp_all

/-- If the head of a list is not whitespace, `trimL` keeps the list. -/
theorem trimL_of_head {c : Char} (t : Str) (h : isJsSpace c = false) :
    trimL (c :: t) = c :: t := by
  simp [trimL, List.dropWhile, h]

/-- `jsTrim` is idempotent. -/
theorem jsTrim_idem (s : Str) : jsTrim (jsTrim s) = jsTrim s := by
  unfold jsTrim
  have h1 : trimL (trimR (trimL s)) = trimR (trimL s) := by
    cases hx : trimL s with
    | nil => simp [hx, trimR, trimL, List.dropWhile]
    | cons c t =>
      rcases trimR_cons c t with h | ⟨r, h⟩
      · simp [h, trimL, List.dropWhile]
      · rw [h]; exact trimL_of_head r (trimL_head hx)
  rw [h1, trimR_idem]

/-- The head of `jsTrim` is never whitespace. -/
theorem jsTrim_head {s : Str} {c : Char} {t : Str} (h : jsTrim s = c :: t) :
    isJsSpace c = false := by
  unfold jsTrim at h
  cases hx : trimL s with
  | nil => rw [hx] at h; simp [trimR] at h
  | cons a b =>
    rw [hx] at h
    rcases trimR_cons a b with h2 | ⟨r, h2⟩
    · rw [h2] at h; exact absurd h (by simp)
    · rw [h2] at h
      cases h
      exact trimL_head hx

/-- C8. The Text Signal Estimator (`getSignalLength`) returns, for every
text string, the number of non-whitespace characters: input length minus the
count of whitespace characters; in particular it never exceeds the length of
the input.  Confirmed. -/
theorem getSignalLength_correct (s : Str) :
    getSignalLength s = s.length - s.countP isJsSpace ∧
    getSignalLength s ≤ s.length := by
  constructor
  · induction s with
    | nil => rfl
    | cons c t ih =>
      by_cases h : isJsSpace c
      · have hle : t.countP isJsSpace ≤ t.length := List.countP_le_length _
        simp [getSignalLength, List.filter, h, List.countP_cons] at ih ⊢
        omega
      · simp [getSignalLength, List.filter, h, List.countP_cons] at ih ⊢
        have hle : t.countP isJsSpace ≤ t.length := List.countP_le_length _
        omega
  · unfold getSignalLength
    exact List.length_filter_le _ _

/-! ### Splitting on whitespace runs

`value.split(/\s+/)` splits at every maximal run of whitespace; a leading or
trailing run contributes an empty piece, and the empty string yields a single
empty piece. -/

mutual

/-- Worker for `jsSplitWs`: accumulating the current (reversed) piece. -/
def splitWsAux (cur : Str) : Str → List Str
  | [] => [cur.reverse]
  | c :: rest =>
    if isJsSpace c then cur.reverse :: splitWsSkip rest
    else splitWsAux (c :: cur) rest

/-- Worker for `jsSplitWs`: inside a whitespace run that already produced a
piece boundary. -/
def splitWsSkip : Str → List Str
  | [] => [[]]
  | c :: rest =>
    if isJsSpace c then splitWsSkip rest
    else splitWsAux [c] rest

end

/-- Model of `value.split(/\s+/)`. -/
def jsSplitWs (s : Str) : List Str := splitWsAux [] s

/-- Both split workers always return at least one piece. -/
theorem splitWs_ne_nil (s : Str) :
    (∀ cur, splitWsAux cur s ≠ []) ∧ splitWsSkip s ≠ [] := by
  induction s with
  | nil => constructor <;> intros <;> simp [splitWsAux, splitWsSkip]
  | cons c rest ih =>
    constructor
    · intro cur
      by_cases h : isJsSpace c
      · simp [splitWsAux, h]
      · simpa [splitWsAux, h] using ih.1 (c :: cur)
    · by_cases h : isJsSpace c
      · simpa [splitWsSkip, h] using ih.2
      · simpa [splitWsSkip, h] using ih.1 [c]

/-- If the accumulator is nonempty, some returned piece is nonempty. -/
theorem splitWsAux_has_token (s : Str) :
    ∀ cur, cur ≠ [] → ∃ t ∈ splitWsAux cur s, t ≠ [] := by
  induction s with
  | nil =>
    intro cur h
    exact ⟨cur.reverse, by simp [splitWsAux], by simpa using h⟩
  | cons c rest ih =>
    intro cur h
    by_cases hc : isJsSpace c
    · exact ⟨cur.reverse, by simp [splitWsAux, hc], by simpa using h⟩
    · obtain ⟨t, ht, hne⟩ := ih (c :: cur) (by simp)
      exact ⟨t, by simpa [splitWsAux, hc] using ht, hne⟩

/-- A string starting with a non-whitespace character has at least one
nonempty `\s+`-split piece. -/
theorem jsSplitWs_token {c : Char} (t : Str) (h : isJsSpace c = false) :
    ((jsSplitWs (c :: t)).filter (fun p => !p.isEmpty)).length ≠ 0 := by
  have : jsSplitWs (c :: t) = splitWsAux [c] t := by
    simp [jsSplitWs, splitWsAux, h]
  rw [this]
  obtain ⟨tok, htok, hne⟩ := splitWsAux_has_token t [c] (by simp)
  have hmem : tok ∈ (splitWsAux [c] t).filter (fun p => !p.isEmpty) :=
    List.mem_filter.mpr ⟨htok, by simpa using hne⟩
  intro hlen
  rw [List.length_eq_zero] at hlen
  simp [hlen] at hmem

/-! ### Extracted-text normalization

`normalizeExtractedText` (server): CRLF to LF, collapse runs of horizontal
whitespace to one space, collapse three or more consecutive newlines to
exactly two, then trim. -/

/-- `value.replace(/\r\n/g, "\n")`. -/
def replCrLf : Str → Str
  | [] => []
  | '\r' :: '\n' :: t => '\n' :: replCrLf t
  | c :: t => c :: replCrLf t

/-- Dropping a while-prefix never lengthens a list. -/
theorem dropWhile_length_le (p : Char → Bool) (l : Str) :
    (l.dropWhile p).length ≤ l.length := by
  induction l with
  | nil => simp
  | cons c t ih =>
    by_cases h : p c
    · simp only [List.dropWhile, h]
      exact Nat.le_succ_of_le ih
    · simp [List.dropWhile, h]

/-- Space-or-tab test for the `[ \t]+` class. -/
def isHorizWs (c : Char) : Bool := c = ' ' || c = '\t'

/-- `value.replace(/[ \t]+/g, " ")`. -/
def collapseHorizWs : Str → Str
  | [] => []
  | c :: t =>
    if isHorizWs c then ' ' :: collapseHorizWs (t.dropWhile isHorizWs)
    else c :: collapseHorizWs t
termination_by s => s.length
decreasing_by
  all_goals simp_wf
  all_goals first
    | omega
    | exact Nat.lt_succ_of_le (dropWhile_length_le _ t)

/-- `value.replace(/\n{3,}/g, "\n\n")`. -/
def collapseNewlines : Str → Str
  | [] => []
  | c :: t =>
    if c = '\n' then
      let k := (t.takeWhile (fun x => x = '\n')).length
      let rest := t.dropWhile (fun x => x = '\n')
      (if 3 ≤ k + 1 then ['\n', '\n'] else List.replicate (k + 1) '\n') ++
        collapseNewlines rest
    else c :: collapseNewlines t
termination_by s => s.length
decreasing_by
  all_goals simp_wf
  all_goals first
    | omega
    | exact Nat.lt_succ_of_le (dropWhile_length_le _ t)

/-- `normalizeExtractedText` from the server. -/
def normalizeExtractedText (value : Str) : Str :=
  jsTrim (collapseNewlines (collapseHorizWs (replCrLf value)))

/-! ### JSON values and a model of `JSON.parse`

Numbers are kept as their source lexeme: no claim under verification inspects
a numeric JSON value, and this avoids attributing float semantics to values
the program never computes with. -/

/-- A decoded JSON value. -/
inductive Json where
  | null
  | bool (b : Bool)
  | num (lex : Str)
  | str (s : Str)
  | arr (elems : List Json)
  | obj (fields : List (Str × Json))

/-- JSON insignificant whitespace (RFC 8259): space, tab, LF, CR. -/
def isJsonWs (c : Char) : Bool := c = ' ' || c = '\t' || c = '\n' || c = '\r'

/-- Skip JSON insignificant whitespace. -/
def skipJsonWs (s : Str) : Str := s.dropWhile isJsonWs

/-- Value of one hexadecimal digit. -/
def hexDigitVal (c : Char) : Option Nat :=
  if c.isDigit then some (c.toNat - '0'.toNat)
  else if 'a' ≤ c ∧ c ≤ 'f' then some (c.toNat - 'a'.toNat + 10)
  else if 'A' ≤ c ∧ c ≤ 'F' then some (c.toNat - 'A'.toNat + 10)
  else none

/-- JSON short escapes. -/
def escChar (c : Char) : Option Char :=
  if c = '"' then some '"'
  else if c = '\\' then some '\\'
  else if c = '/' then some '/'
  else if c = 'b' then some (Char.ofNat 8)
  else if c = 'f' then some (Char.ofNat 12)
  else if c = 'n' then some '\n'
  else if c = 'r' then some '\r'
  else if c = 't' then some '\t'
  else none

/-- Parse a JSON string body (the opening quote already consumed), returning
the decoded characters and the remaining input. -/
def pStrBody : Str → Option (Str × Str)
  | [] => none
  | c :: t =>
    if c = '"' then some ([], t)
    else if c = '\\' then
      match t with
      | [] => none
      | e :: t2 =>
        if e = 'u' then
          match t2 with
          | a :: b :: c2 :: d :: t3 =>
            match hexDigitVal a, hexDigitVal b, hexDigitVal c2, hexDigitVal d with
            | some ha, some hb, some hc, some hd =>
              match pStrBody t3 with
              | some (r, rem) =>
                some (Char.ofNat (((ha * 16 + hb) * 16 + hc) * 16 + hd) :: r, rem)
              | none => none
            | _, _, _, _ => none
          | _ => none
        else
          match escChar e with
          | some ch =>
            match pStrBody t2 with
            | some (r, rem) => some (ch :: r, rem)
            | none => none
          | none => none
    else if c.toNat < 32 then none
    else
      match pStrBody t with
      | some (r, rem) => some (c :: r, rem)
      | none => none

/-- Parse the optional exponent of a JSON number, appending to the lexeme. -/
def pNumExp (lex : Str) (s : Str) : Option (Str × Str) :=
  match s with
  | [] => some (lex, [])
  | c :: t =>
    if c = 'e' ∨ c = 'E' then
      let (sgn, t2) : Str × Str :=
        match t with
        | '+' :: r => (['+'], r)
        | '-' :: r => (['-'], r)
        | _ => ([], t)
      let d := t2.takeWhile Char.isDigit
      if d.isEmpty then none
      else some (lex ++ c :: (sgn ++ d), t2.dropWhile Char.isDigit)
    else some (lex, s)

/-- Parse a JSON number, returning its lexeme and the remaining input
(JSON grammar: optional minus, no leading zero, optional fraction and
exponent). -/
def pNum (s : Str) : Option (Str × Str) :=
  let (sign, s1) : Str × Str :=
    match s with
    | '-' :: t => (['-'], t)
    | _ => ([], s)
  let ipart := s1.takeWhile Char.isDigit
  let s2 := s1.dropWhile Char.isDigit
  if ipart.isEmpty then none
  else if 1 < ipart.length ∧ ipart.head? = some '0' then none
  else
    match s2 with
    | '.' :: t =>
      let f := t.takeWhile Char.isDigit
      if f.isEmpty then none
      else pNumExp (sign ++ ipart ++ '.' :: f) (t.dropWhile Char.isDigit)
    | _ => pNumExp (sign ++ ipart) s2

mutual

/-- Fueled recursive-descent JSON value parser. -/
def pVal : Nat → Str → Option (Json × Str)
  | 0, _ => none
  | Nat.succ n, s =>
    match skipJsonWs s with
    | [] => none
    | c :: t =>
      if c = '{' then
        match skipJsonWs t with
        | '}' :: r => some (.obj [], r)
        | _ => pMembers n t []
      else if c = '[' then
        match skipJsonWs t with
        | ']' :: r => some (.arr [], r)
        | _ => pElems n t []
      else if c = '"' then
        match pStrBody t with
        | some (body, rem) => some (.str body, rem)
        | none => none
      else if c = 't' then
        match t with
        | 'r' :: 'u' :: 'e' :: r => some (.bool true, r)
        | _ => none
      else if c = 'f' then
        match t with
        | 'a' :: 'l' :: 's' :: 'e' :: r => some (.bool false, r)
        | _ => none
      else if c = 'n' then
        match t with
        | 'u' :: 'l' :: 'l' :: r => some (.null, r)
        | _ => none
      else if c = '-' ∨ c.isDigit then
        match pNum (c :: t) with
        | some (lex, rem) => some (.num lex, rem)
        | none => none
      else none

/-- Object members (position: after `{` or after `,`). -/
def pMembers : Nat → Str → List (Str × Json) → Option (Json × Str)
  | 0, _, _ => none
  | Nat.succ n, s, acc =>
    match skipJsonWs s with
    | '"' :: t =>
      match pStrBody t with
      | some (key, rem) =>
        match skipJsonWs rem with
        | ':' :: rem2 =>
          match pVal n rem2 with
          | some (v, rem3) =>
            match skipJsonWs rem3 with
            | ',' :: rem4 => pMembers n rem4 (acc ++ [(key, v)])
            | '}' :: rem4 => some (.obj (acc ++ [(key, v)]), rem4)
            | _ => none
          | none => none
        | _ => none
      | none => none
    | _ => none

/-- Array elements (position: after `[` or after `,`). -/
def pElems : Nat → Str → List Json → Option (Json × Str)
  | 0, _, _ => none
  | Nat.succ n, s, acc =>
    match pVal n s with
    | some (v, rem) =>
      match skipJsonWs rem with
      | ',' :: rem2 => pElems n rem2 (acc ++ [v])
      | ']' :: rem2 => some (.arr (acc ++ [v]), rem2)
      | _ => none
    | none => none

end

/-- Model of `JSON.parse`: parse one value, then require only whitespace to
remain.  Returns `none` where `JSON.parse` would throw a `SyntaxError`. -/
def jsonParse (s : Str) : Option Json :=
  match pVal (2 * s.length + 2) s with
  | some (v, rest) => if (skipJsonWs rest).isEmpty then some v else none
  | none => none

/-! ### The JSON recovery parser (`parseJsonSafely` in `textExtraction.js`) -/

/-- Errors thrown by `parseJsonSafely`.  The source has two failure throw
sites besides the empty-output check: the explicit
`Error("LLM output was not valid JSON")` and a `SyntaxError` propagating out
of the final `JSON.parse` call; the taxonomy of the specification classifies
both as InvalidModelOutput (a model-response parsing failure), so both are
modeled by `invalidModelOutput`, carrying the thrown message. -/
inductive JsonSafeErr where
  | emptyOutput
  | invalidModelOutput (msg : Str)
deriving DecidableEq

/-- Message of the explicit invalid-JSON throw. -/
def invalidJsonMsg : Str := strL "LLM output was not valid JSON"

/-- Stand-in for the message of a propagated `JSON.parse` `SyntaxError` (the
exact wording is produced by the JavaScript runtime). -/
def syntaxErrorMsg : Str := strL "SyntaxError"

/-- `trimmed.replace(/^```(?:json)?\s*/i, "")`: strip a leading code-fence
marker, an optional case-insensitive `json` tag, and following whitespace. -/
def stripLeadingFence (s : Str) : Str :=
  if (strL "```").isPrefixOf s then
    let r := s.drop 3
    let r2 := if lowerStr (r.take 4) = strL "json" then r.drop 4 else r
    r2.dropWhile isJsSpace
  else s

/-- `.replace(/\s*```$/, "")`: strip a trailing code-fence marker and the
whitespace before it. -/
def stripTrailingFence (s : Str) : Str :=
  let rev := s.reverse
  if (strL "```").isPrefixOf rev then
    ((rev.drop 3).dropWhile isJsSpace).reverse
  else s

/-- The two fence-stripping replacements, applied in source order. -/
def stripFences (s : Str) : Str := stripTrailingFence (stripLeadingFence s)

/-- `withoutFences.match(/\{[\s\S]*\}/)`: the greedy substring from the
first opening brace to the last closing brace, when a closing brace follows
the first opening brace. -/
def braceSlice (s : Str) : Option Str :=
  let l := s.dropWhile (fun c => c ≠ '{')
  if l.isEmpty then none
  else
    let rev2 := l.reverse.dropWhile (fun c => c ≠ '}')
    if rev2.isEmpty then none else some rev2.reverse

/-- `parseJsonSafely` from `textExtraction.js`. -/
def parseJsonSafely (raw : Str) : Except JsonSafeErr Json :=
  let trimmed := jsTrim raw
  if trimmed.isEmpty then .error .emptyOutput
  else
    let withoutFences := stripFences trimmed
    match jsonParse withoutFences with
    | some v => .ok v
    | none =>
      match braceSlice withoutFences with
      | none => .error (.invalidModelOutput invalidJsonMsg)
      | some sub =>
        match jsonParse sub with
        | some v => .ok v
        | none => .error (.invalidModelOutput syntaxErrorMsg)

/-- The head surviving a `dropWhile` fails the predicate. -/
theorem dropWhile_head {p : Char → Bool} :
    ∀ {s : Str} {c : Char} {t : Str}, s.dropWhile p = c :: t → p c = false := by
  intro s
  induction s with
  | nil => intro c t h; simp [List.dropWhile] at h
  | cons a b ih =>
    intro c t h
    by_cases ha : p a
    · exact ih (by simpa [List.dropWhile, ha] using h)
    · simp only [List.dropWhile, ha, if_neg] at h
      have : a = c := by
        have := congrArg List.head? h
        simpa using this
      rw [← this]
      simpa using ha

/-- Every member of a `takeWhile` satisfies the predicate. -/
theorem mem_takeWhile {p : Char → Bool} :
    ∀ {l : Str} {a : Char}, a ∈ l.takeWhile p → p a = true := by
  intro l
  induction l with
  | nil => intro a h; simp [List.takeWhile] at h
  | cons c t ih =>
    intro a h
    by_cases hc : p c
    · simp only [List.takeWhile, hc] at h
      rcases List.mem_cons.mp h with rfl | h2
      · exact hc
      · exact ih h2
    · simp [List.takeWhile, hc] at h

/-- The slice found by `braceSlice` runs from the first `{` of the string to
its last `}`: the string splits as `a ++ sub ++ b` with no `{` before the
slice and no `}` after it, and the slice itself is brace-delimited. -/
theorem braceSlice_spec (s sub : Str) (h : braceSlice s = some sub) :
    ∃ a b, s = a ++ sub ++ b ∧ '{' ∉ a ∧ '}' ∉ b ∧
      sub.head? = some '{' ∧ sub.getLast? = some '}' := by
  unfold braceSlice at h
  cases hl : s.dropWhile (fun c => c ≠ '{') with
  | nil => rw [hl] at h; simp at h
  | cons c0 l0 =>
    rw [hl] at h
    simp only [List.isEmpty_cons, if_neg, Bool.false_eq_true, not_false_eq_true] at h
    by_cases hrev : ((c0 :: l0).reverse.dropWhile (fun c => c ≠ '}')).isEmpty
    · rw [if_pos hrev] at h; exact absurd h (by simp)
    · rw [if_neg hrev] at h
      have hsub : sub = ((c0 :: l0).reverse.dropWhile (fun c => c ≠ '}')).reverse :=
        (Option.some.inj h).symm
      have hc0 : c0 = '{' := by
        have := dropWhile_head hl
        simpa using this
      have hsplit : s = s.takeWhile (fun c => c ≠ '{') ++ (c0 :: l0) := by
        conv_lhs => rw [← List.takeWhile_append_dropWhile (fun c => c ≠ '{') s]
        rw [hl]
      have hsplit2 : (c0 :: l0).reverse =
          (c0 :: l0).reverse.takeWhile (fun c => c ≠ '}') ++
          (c0 :: l0).reverse.dropWhile (fun c => c ≠ '}') :=
        (List.takeWhile_append_dropWhile _ _).symm
      have hldecomp : (c0 :: l0) = sub ++
          ((c0 :: l0).reverse.takeWhile (fun c => c ≠ '}')).reverse := by
        have h1 := congrArg List.reverse hsplit2
        rw [List.reverse_reverse, List.reverse_append] at h1
        rw [← hsub] at h1
        exact h1
      have hsubne : sub ≠ [] := by
        rw [hsub]
        intro hcon
        rw [List.reverse_eq_nil_iff] at hcon
        rw [hcon] at hrev
        simp at hrev
      refine ⟨s.takeWhile (fun c => c ≠ '{'),
        ((c0 :: l0).reverse.takeWhile (fun c => c ≠ '}')).reverse, ?_, ?_, ?_, ?_, ?_⟩
      · conv_lhs => rw [hsplit, hldecomp]
        rw [List.append_assoc]
      · intro hmem
        have := mem_takeWhile hmem
        simp at this
      · intro hmem
        rw [List.mem_reverse] at hmem
        have := mem_takeWhile hmem
        simp at this
      · cases hsx : sub with
        | nil => exact absurd hsx hsubne
        | cons x xs =>
          rw [hsx] at hldecomp
          have : c0 = x := by
            have := congrArg List.head? hldecomp
            simpa using this
          simp [hsx, ← this, hc0]
      · have hrevsub : sub.reverse = (c0 :: l0).reverse.dropWhile (fun c => c ≠ '}') := by
          rw [hsub, List.reverse_reverse]
        cases hdx : (c0 :: l0).reverse.dropWhile (fun c => c ≠ '}') with
        | nil => rw [hdx] at hrev; simp at hrev
        | cons y ys =>
          have hy : y = '}' := by
            have := dropWhile_head hdx
            simpa using this
          have : sub.getLast? = sub.reverse.head? := by
            rw [← List.head?_reverse]
          rw [this, hrevsub, hdx, hy]
          rfl

set_option maxRecDepth 8192

/-- C4. The JSON recovery parser: a blank-after-trim response fails with
EmptyOutput; otherwise the fence markers (optionally tagged json) are
stripped and a direct parse is attempted; on failure the greedy substring
between the first opening brace and the last closing brace is parsed; if
that too is unparseable the call fails with InvalidModelOutput (the
taxonomy's class for model-response parse failures, covering both throw
sites of the source).  The spec's three examples (a fenced json block, JSON
embedded in prose, and a string with no JSON at all) behave as stated.
Confirmed. -/
theorem parseJsonSafely_spec :
    (∀ raw, (jsTrim raw).isEmpty = true →
      parseJsonSafely raw = .error .emptyOutput) ∧
    (∀ raw v, (jsTrim raw).isEmpty = false →
      jsonParse (stripFences (jsTrim raw)) = some v →
      parseJsonSafely raw = .ok v) ∧
    (∀ raw sub v, (jsTrim raw).isEmpty = false →
      jsonParse (stripFences (jsTrim raw)) = none →
      braceSlice (stripFences (jsTrim raw)) = some sub →
      jsonParse sub = some v →
      parseJsonSafely raw = .ok v) ∧
    (∀ raw, (jsTrim raw).isEmpty = false →
      jsonParse (stripFences (jsTrim raw)) = none →
      (braceSlice (stripFences (jsTrim raw)) = none ∨
        (∃ sub, braceSlice (stripFences (jsTrim raw)) = some sub ∧
          jsonParse sub = none)) →
      ∃ m, parseJsonSafely raw = .error (.invalidModelOutput m)) ∧
    (∀ s sub, braceSlice s = some sub →
      ∃ a b, s = a ++ sub ++ b ∧ '{' ∉ a ∧ '}' ∉ b ∧
        sub.head? = some '{' ∧ sub.getLast? = some '}') ∧
    parseJsonSafely (strL "```json\n\x7b\"tone\":\"neutral\"\x7d\n```") =
      .ok (Json.obj [(strL "tone", Json.str (strL "neutral"))]) ∧
    parseJsonSafely (strL "Here you go: \x7b\"tone\":\"neutral\"\x7d thanks") =
      .ok (Json.obj [(strL "tone", Json.str (strL "neutral"))]) ∧
    parseJsonSafely (strL "not json at all") =
      .error (.invalidModelOutput invalidJsonMsg) := by
  refine ⟨?_, ?_, ?_, ?_, braceSlice_spec, by rfl, by rfl, by rfl⟩
  · intro raw h
    simp [parseJsonSafely, h]
  · intro raw v h1 h2
    simp [parseJsonSafely, h1, h2]
  · intro raw sub v h1 h2 h3 h4
    simp [parseJsonSafely, h1, h2, h3, h4]
  · intro raw h1 h2 h3
    rcases h3 with h3 | ⟨sub, h3, h4⟩
    · exact ⟨invalidJsonMsg, by simp [parseJsonSafely, h1, h2, h3]⟩
    · exact ⟨syntaxErrorMsg, by simp [parseJsonSafely, h1, h2, h3, h4]⟩

/-- Witness for C4 at a concrete input: a whitespace-only raw response is
rejected as EmptyOutput. -/
theorem parseJsonSafely_spec_witness :
    parseJsonSafely (strL "   ") = .error .emptyOutput :=
  parseJsonSafely_spec.1 (strL "   ") (by rfl)

/-! ### Rate-limit / quota error classification (`parseGeminiQuotaError`,
`extractRetryAfterSeconds` in `src/unnamed/part_000`) -/

/-- Case-insensitive test for a leading `s` (the regexes carry the `i`
flag). -/
def headIsS (s : Str) : Bool :=
  match s with
  | c :: _ => c.toLower = 's'
  | [] => false

/-- Attempt to match `retry in\s+(\d+(?:\.\d+)?)s` (case-insensitive) at the
start of the given suffix, returning the captured integer digits and, when
present, the fractional digits.  The regex backtracks out of a fractional
part not followed by `s`, but the character then read is the dot, never `s`,
so a fractional part either completes the match or fails it. -/
def tryRetryInAt (s : Str) : Option (Str × Option Str) :=
  if lowerStr (s.take 8) = strL "retry in" then
    let r1 := s.drop 8
    if (r1.takeWhile isJsSpace).isEmpty then none
    else
      let r2 := r1.dropWhile isJsSpace
      let ds := r2.takeWhile Char.isDigit
      if ds.isEmpty then none
      else
        match r2.dropWhile Char.isDigit with
        | '.' :: r4 =>
          let fs := r4.takeWhile Char.isDigit
          if fs.isEmpty then none
          else if headIsS (r4.dropWhile Char.isDigit) then some (ds, some fs)
          else none
        | r3 => if headIsS r3 then some (ds, none) else none
  else none

/-- `message.match(/retry in\s+(\d+(?:\.\d+)?)s/i)`: first match, scanning
start positions left to right. -/
def matchRetryIn : Str → Option (Str × Option Str)
  | [] => none
  | c :: t =>
    match tryRetryInAt (c :: t) with
    | some r => some r
    | none => matchRetryIn t

/-- Attempt to match `retryDelay\\?":\\?"(\d+)s` (case-insensitive) at the
start of the given suffix. -/
def tryDelayAt (s : Str) : Option Str :=
  if lowerStr (s.take 10) = strL "retrydelay" then
    let r1 :=
      match s.drop 10 with
      | '\\' :: t => t
      | t => t
    match r1 with
    | '"' :: ':' :: r2 =>
      let r3 :=
        match r2 with
        | '\\' :: t => t
        | t => t
      match r3 with
      | '"' :: r4 =>
        let ds := r4.takeWhile Char.isDigit
        if ds.isEmpty then none
        else if headIsS (r4.dropWhile Char.isDigit) then some ds else none
      | _ => none
    | _ => none
  else none

/-- `message.match(/retryDelay\\?":\\?"(\d+)s/i)`: first match. -/
def matchRetryDelay : Str → Option Str
  | [] => none
  | c :: t =>
    match tryDelayAt (c :: t) with
    | some r => some r
    | none => matchRetryDelay t

/-- Decimal value of a digit string. -/
def natOfDigits (ds : Str) : Nat :=
  ds.foldl (fun n c => n * 10 + (c.toNat - '0'.toNat)) 0

/-- `Math.ceil(Number(lexeme))` for a captured `\d+(\.\d+)?` lexeme, taken
exactly: the integer part, plus one when fractional digits are present and
not all zero.  (JavaScript computes this through a float64, which agrees
except on fraction strings long enough to round to an exact integer.) -/
def ceilDigits (ds : Str) (fs : Option Str) : Nat :=
  natOfDigits ds +
    (match fs with
     | some f => if f.any (fun c => c ≠ '0') then 1 else 0
     | none => 0)

/-- `extractRetryAfterSeconds` from the server. -/
def extractRetryAfterSeconds (message : Str) : Option Nat :=
  if message.isEmpty then none
  else
    match matchRetryIn message with
    | some (ds, fs) => some (max 1 (ceilDigits ds fs))
    | none =>
      match matchRetryDelay message with
      | some ds => some (natOfDigits ds)
      | none => none

/-- The value returned by `parseGeminiQuotaError` on a quota-like error. -/
structure QuotaInfo where
  message : Str
  retryAfterSeconds : Option Nat
deriving DecidableEq

/-- The fixed user-facing quota message of the server. -/
def quotaMessage : Str :=
  strL "Gemini API quota/rate limit reached. Retry after the cooldown or use a billed API key/model with higher limits."

/-- The rate-limit/quota signature test of `parseGeminiQuotaError`. -/
def looksLikeQuota (message : Str) : Bool :=
  strHas message (strL "429") ||
  strHas (lowerStr message) (strL "quota exceeded") ||
  strHas (lowerStr message) (strL "too many requests") ||
  strHas (lowerStr message) (strL "rate limit")

/-- `parseGeminiQuotaError` from the server, applied to the error message. -/
def parseGeminiQuotaError (message : Str) : Option QuotaInfo :=
  if looksLikeQuota message then
    some ⟨quotaMessage, extractRetryAfterSeconds message⟩
  else none

/-! ### The Result Normalizer (`normalizeResult` in `textExtraction.js`) -/

/-- Lookup of an object field, `undefined` (`none`) on anything that is not
an object with that key.  On duplicate keys the later entry wins, as in a
JavaScript object built by `JSON.parse`. -/
def lookupField : List (Str × Json) → Str → Option Json
  | [], _ => none
  | (k, v) :: rest, key =>
    match lookupField rest key with
    | some r => some r
    | none => if k = key then some v else none

/-- `input?.key` for a decoded JSON value. -/
def getField (j : Json) (key : Str) : Option Json :=
  match j with
  | .obj fields => lookupField fields key
  | _ => none

/-- The `forward_guidance` sub-object of a Result.  The source field
`tax_rate` is spelled the same here. -/
@[ext]
structure ForwardGuidance where
  revenue : Option Str
  margin : Option Str
  capex : Option Str
  tax_rate : Option Str
deriving DecidableEq

/-- One evidence entry.  The source field `section` is a Lean keyword and is
spelled `sectionName` here. -/
@[ext]
structure EvidenceQuote where
  quote : Str
  sectionName : Str
deriving DecidableEq

/-- The normalized analysis result (the strict schema of the spec). -/
@[ext]
structure AnalysisResult where
  tone : Str
  tone_summary : Option Str
  confidence : Str
  key_positives : List Str
  key_concerns : List Str
  forward_guidance : ForwardGuidance
  capacity_utilization_trends : Option Str
  growth_initiatives : List Str
  evidence_quotes : List EvidenceQuote
  missing_sections : List Str
deriving DecidableEq

/-- The allowed `tone` values. -/
def toneAllowed : List Str :=
  [strL "optimistic", strL "cautious", strL "defensive", strL "neutral",
   strL "pessimistic"]

/-- The allowed `confidence` values. -/
def confidenceAllowed : List Str := [strL "high", strL "medium", strL "low"]

/-- `allowed.includes(value) ? value : dflt`, where `includes` on a string
array matches string values only. -/
def normalizeEnum (value : Option Json) (allowed : List Str) (dflt : Str) : Str :=
  match value with
  | some (Json.str s) => if allowed.contains s then s else dflt
  | _ => dflt

/-- `normalizeNullableString` from the source: non-strings and blank or
null-like strings become null, anything else is trimmed. -/
def normalizeNullableString (value : Option Json) : Option Str :=
  match value with
  | some (Json.str s) =>
    let cleaned := jsTrim s
    if cleaned.isEmpty = true ∨ lowerStr cleaned = strL "null" ∨
        lowerStr cleaned = strL "not mentioned" then none
    else some cleaned
  | _ => none

/-- `Array.isArray(value) ? value : []`. -/
def jsonArray (value : Option Json) : List Json :=
  match value with
  | some (Json.arr l) => l
  | _ => []

/-- `normalizeStringArray` from the source: trim string items, drop
non-strings and empties, cap the length. -/
def normalizeStringArray (value : Option Json) (max : Nat) : List Str :=
  (((jsonArray value).map fun item =>
      match item with
      | Json.str s => jsTrim s
      | _ => ([] : Str)).filter fun s => !s.isEmpty).take max

/-- The sentinel entry substituted for an empty evidence list. -/
def sentinelQuote : EvidenceQuote :=
  ⟨strL "No direct quote extracted", strL "N/A"⟩

/-- The per-item coercion inside `normalizeEvidence`: a string `quote` or
`section` is trimmed, anything else becomes the empty string. -/
def coerceEvidence (item : Json) : EvidenceQuote :=
  { quote :=
      match getField item (strL "quote") with
      | some (Json.str s) => jsTrim s
      | _ => []
    sectionName :=
      match getField item (strL "section") with
      | some (Json.str s) => jsTrim s
      | _ => [] }

/-- `normalizeEvidence` from the source. -/
def normalizeEvidence (value : Option Json) : List EvidenceQuote :=
  let cleaned :=
    (((jsonArray value).map coerceEvidence).filter fun q =>
      10 < q.quote.length).take 8
  if cleaned.isEmpty then [sentinelQuote] else cleaned

/-- `normalizeResult` from the source. -/
def normalizeResult (input : Json) : AnalysisResult :=
  { tone := normalizeEnum (getField input (strL "tone")) toneAllowed (strL "neutral")
    tone_summary := normalizeNullableString (getField input (strL "tone_summary"))
    confidence :=
      normalizeEnum (getField input (strL "confidence")) confidenceAllowed (strL "low")
    key_positives := normalizeStringArray (getField input (strL "key_positives")) 6
    key_concerns := normalizeStringArray (getField input (strL "key_concerns")) 6
    forward_guidance :=
      { revenue := normalizeNullableString
          ((getField input (strL "forward_guidance")).bind fun j =>
            getField j (strL "revenue"))
        margin := normalizeNullableString
          ((getField input (strL "forward_guidance")).bind fun j =>
            getField j (strL "margin"))
        capex := normalizeNullableString
          ((getField input (strL "forward_guidance")).bind fun j =>
            getField j (strL "capex"))
        tax_rate := normalizeNullableString
          ((getField input (strL "forward_guidance")).bind fun j =>
            getField j (strL "tax_rate")) }
    capacity_utilization_trends :=
      normalizeNullableString (getField input (strL "capacity_utilization_trends"))
    growth_initiatives :=
      normalizeStringArray (getField input (strL "growth_initiatives")) 6
    evidence_quotes := normalizeEvidence (getField input (strL "evidence_quotes"))
    missing_sections :=
      normalizeStringArray (getField input (strL "missing_sections")) 12 }

/-- `isLikelyUnderfilled` from the source. -/
def isLikelyUnderfilled (r : AnalysisResult) : Bool :=
  let weakArrays :=
    ([r.key_positives, r.key_concerns, r.growth_initiatives].filter fun a =>
      a.length = 0).length
  let weakGuidance :=
    [r.forward_guidance.revenue, r.forward_guidance.margin,
      r.forward_guidance.capex, r.forward_guidance.tax_rate].all fun v =>
      v = none
  decide (2 ≤ weakArrays) && weakGuidance

/-- Encoding of an option back to a JSON field value. -/
def optStrJson : Option Str → Json
  | none => Json.null
  | some s => Json.str s

/-- Encoding of an evidence entry back to a JSON object. -/
def evidenceJson (q : EvidenceQuote) : Json :=
  Json.obj [(strL "quote", Json.str q.quote), (strL "section", Json.str q.sectionName)]

/-- Encoding of a normalized Result back to the JSON value a JavaScript
caller would pass when re-normalizing it. -/
def AnalysisResult.toJson (r : AnalysisResult) : Json :=
  Json.obj
    [(strL "tone", Json.str r.tone),
     (strL "tone_summary", optStrJson r.tone_summary),
     (strL "confidence", Json.str r.confidence),
     (strL "key_positives", Json.arr (r.key_positives.map Json.str)),
     (strL "key_concerns", Json.arr (r.key_concerns.map Json.str)),
     (strL "forward_guidance", Json.obj
       [(strL "revenue", optStrJson r.forward_guidance.revenue),
        (strL "margin", optStrJson r.forward_guidance.margin),
        (strL "capex", optStrJson r.forward_guidance.capex),
        (strL "tax_rate", optStrJson r.forward_guidance.tax_rate)]),
     (strL "capacity_utilization_trends",
       optStrJson r.capacity_utilization_trends),
     (strL "growth_initiatives", Json.arr (r.growth_initiatives.map Json.str)),
     (strL "evidence_quotes", Json.arr (r.evidence_quotes.map evidenceJson)),
     (strL "missing_sections", Json.arr (r.missing_sections.map Json.str))]

/-- The default survives `includes`, so a normalized enum value is always in
the allowed list. -/
theorem enum_mem (value : Option Json) (allowed : List Str) (dflt : Str)
    (hd : allowed.contains dflt = true) :
    allowed.contains (normalizeEnum value allowed dflt) = true := by
  cases value with
  | none => exact hd
  | some j =>
    cases j with
    | str s =>
      show allowed.contains (if allowed.contains s = true then s else dflt) = true
      by_cases hs : allowed.contains s = true
      · rw [if_pos hs]; exact hs
      · rw [if_neg hs]; exact hd
    | null => exact hd
    | bool b => exact hd
    | num lex => exact hd
    | arr l => exact hd
    | obj fs => exact hd

/-- A value already in the allowed list passes through `normalizeEnum`. -/
theorem enum_stable (s : Str) (allowed : List Str) (dflt : Str)
    (h : allowed.contains s = true) :
    normalizeEnum (some (Json.str s)) allowed dflt = s := by
  show (if allowed.contains s = true then s else dflt) = s
  rw [if_pos h]

/-- Everything `normalizeNullableString` returns is trim-stable, nonempty
and not null-like. -/
theorem nns_inv (value : Option Json) {s : Str}
    (h : normalizeNullableString value = some s) :
    jsTrim s = s ∧ s.isEmpty = false ∧ lowerStr s ≠ strL "null" ∧
      lowerStr s ≠ strL "not mentioned" := by
  cases value with
  | none => simp [normalizeNullableString] at h
  | some j =>
    cases j with
    | str s0 =>
      by_cases hc : (jsTrim s0).isEmpty = true ∨ lowerStr (jsTrim s0) = strL "null" ∨
          lowerStr (jsTrim s0) = strL "not mentioned"
      · simp only [normalizeNullableString, if_pos hc] at h
        exact absurd h (by simp)
      · simp only [normalizeNullableString, if_neg hc, Option.some.injEq] at h
        subst h
        push_neg at hc
        obtain ⟨h1, h2, h3⟩ := hc
        refine ⟨jsTrim_idem s0, ?_, h2, h3⟩
        simpa using h1
    | null => simp [normalizeNullableString] at h
    | bool b => simp [normalizeNullableString] at h
    | num lex => simp [normalizeNullableString] at h
    | arr l => simp [normalizeNullableString] at h
    | obj fs => simp [normalizeNullableString] at h

/-- A nullable string meeting the output invariant re-normalizes to
itself. -/
theorem nns_stable (o : Option Str)
    (h : ∀ s, o = some s → jsTrim s = s ∧ s.isEmpty = false ∧
      lowerStr s ≠ strL "null" ∧ lowerStr s ≠ strL "not mentioned") :
    normalizeNullableString (some (optStrJson o)) = o := by
  cases o with
  | none => rfl
  | some s =>
    obtain ⟨ht, hne, hn1, hn2⟩ := h s rfl
    have hc : ¬((jsTrim s).isEmpty = true ∨ lowerStr (jsTrim s) = strL "null" ∨
        lowerStr (jsTrim s) = strL "not mentioned") := by
      rw [ht]
      push_neg
      exact ⟨by simp [hne], hn1, hn2⟩
    show normalizeNullableString (some (Json.str s)) = some s
    simp only [normalizeNullableString]
    rw [ht] at hc
    rw [ht, if_neg hc]

/-- Output invariant of `normalizeStringArray`: capped length, trim-stable
nonempty members. -/
theorem nsa_inv (value : Option Json) (max : Nat) :
    (normalizeStringArray value max).length ≤ max ∧
    ∀ s ∈ normalizeStringArray value max,
      jsTrim s = s ∧ s.isEmpty = false := by
  constructor
  · exact List.length_take_le _ _
  · intro s hs
    have hs2 := List.mem_of_mem_take hs
    obtain ⟨hmem, hpass⟩ := List.mem_filter.mp hs2
    obtain ⟨j, _, hj⟩ := List.mem_map.mp hmem
    have hne : s.isEmpty = false := by simpa using hpass
    refine ⟨?_, hne⟩
    cases j with
    | str s0 => rw [← hj]; exact jsTrim_idem s0
    | null => rw [← hj] at hne; simp at hne
    | bool b => rw [← hj] at hne; simp at hne
    | num lex => rw [← hj] at hne; simp at hne
    | arr l => rw [← hj] at hne; simp at hne
    | obj fs => rw [← hj] at hne; simp at hne

/-- A string array meeting the output invariant re-normalizes to itself. -/
theorem nsa_stable (l : List Str) (max : Nat) (hlen : l.length ≤ max)
    (hmem : ∀ s ∈ l, jsTrim s = s ∧ s.isEmpty = false) :
    normalizeStringArray (some (Json.arr (l.map Json.str))) max = l := by
  unfold normalizeStringArray jsonArray
  rw [List.map_map]
  have hmap : l.map ((fun item =>
      match item with
      | Json.str s => jsTrim s
      | _ => ([] : Str)) ∘ Json.str) = l := by
    have : ∀ s ∈ l, ((fun item =>
        match item with
        | Json.str s => jsTrim s
        | _ => ([] : Str)) ∘ Json.str) s = id s := by
      intro s hs
      simpa using (hmem s hs).1
    rw [List.map_congr_left this, List.map_id]
  rw [hmap]
  have hfil : l.filter (fun s => !s.isEmpty) = l :=
    List.filter_eq_self.mpr (fun s hs => by simp [(hmem s hs).2])
  rw [hfil]
  exact List.take_of_length_le hlen

/-- Output invariant of `normalizeEvidence`: never empty, at most eight
entries, every entry trim-stable with a quote longer than ten characters. -/
theorem nev_inv (value : Option Json) :
    normalizeEvidence value ≠ [] ∧ (normalizeEvidence value).length ≤ 8 ∧
    ∀ q ∈ normalizeEvidence value,
      jsTrim q.quote = q.quote ∧ 10 < q.quote.length ∧
        jsTrim q.sectionName = q.sectionName := by
  unfold normalizeEvidence
  by_cases hc : ((((jsonArray value).map coerceEvidence).filter fun q =>
      10 < q.quote.length).take 8).isEmpty
  · rw [if_pos hc]
    refine ⟨by simp, by simp, ?_⟩
    intro q hq
    rcases List.mem_singleton.mp hq with rfl
    refine ⟨by rfl, by simp [sentinelQuote, strL], by rfl⟩
  · rw [if_neg hc]
    refine ⟨by simpa using hc, List.length_take_le _ _, ?_⟩
    intro q hq
    have hq2 := List.mem_of_mem_take hq
    obtain ⟨hmem, hpass⟩ := List.mem_filter.mp hq2
    obtain ⟨j, _, hj⟩ := List.mem_map.mp hmem
    have hlen : 10 < q.quote.length := by simpa using hpass
    refine ⟨?_, hlen, ?_⟩
    · rw [← hj]
      show jsTrim (coerceEvidence j).quote = (coerceEvidence j).quote
      unfold coerceEvidence
      cases hgf : getField j (strL "quote") with
      | none => rfl
      | some j2 =>
        cases j2 with
        | str s0 => exact jsTrim_idem s0
        | null => rfl
        | bool b => rfl
        | num lex => rfl
        | arr l => rfl
        | obj fs => rfl
    · rw [← hj]
      show jsTrim (coerceEvidence j).sectionName = (coerceEvidence j).sectionName
      unfold coerceEvidence
      cases hgf : getField j (strL "section") with
      | none => rfl
      | some j2 =>
        cases j2 with
        | str s0 => exact jsTrim_idem s0
        | null => rfl
        | bool b => rfl
        | num lex => rfl
        | arr l => rfl
        | obj fs => rfl

/-- An evidence list meeting the output invariant re-normalizes to
itself. -/
theorem nev_stable (l : List EvidenceQuote) (hne : l ≠ []) (hlen : l.length ≤ 8)
    (hmem : ∀ q ∈ l, jsTrim q.quote = q.quote ∧ 10 < q.quote.length ∧
      jsTrim q.sectionName = q.sectionName) :
    normalizeEvidence (some (Json.arr (l.map evidenceJson))) = l := by
  unfold normalizeEvidence jsonArray
  rw [List.map_map]
  have hmap : l.map (coerceEvidence ∘ evidenceJson) = l := by
    have : ∀ q ∈ l, (coerceEvidence ∘ evidenceJson) q = id q := by
      intro q hq
      obtain ⟨h1, _, h3⟩ := hmem q hq
      show coerceEvidence (evidenceJson q) = q
      have : coerceEvidence (evidenceJson q) =
          ⟨jsTrim q.quote, jsTrim q.sectionName⟩ := rfl
      rw [this, h1, h3]
    rw [List.map_congr_left this, List.map_id]
  rw [hmap]
  have hfil : l.filter (fun q => 10 < q.quote.length) = l :=
    List.filter_eq_self.mpr (fun q hq => by
      simpa using (hmem q hq).2.1)
  rw [hfil, List.take_of_length_le hlen]
  have hf : ¬(l.isEmpty = true) := by simpa [List.isEmpty_iff] using hne
  rw [if_neg hf]

/-- An evidence entry whose `section` field is `null` (not a string) but
whose quote is long enough. -/
def sectionNullEntry : Json :=
  Json.obj
    [(strL "quote", Json.str (strL "a quote with plenty of characters")),
     (strL "section", Json.null)]

/-- Counterexample to C6 as stated: the evidence filter of the source tests
only the `quote` field; an entry whose `section` field is not a string (here
`null`) is kept, with its section coerced to the empty string — so
`evidence_quotes` is not restricted to entries whose section was coercible
to string. -/
theorem normalizeEvidence_counterexample :
    (normalizeResult (Json.obj
        [(strL "evidence_quotes", Json.arr [sectionNullEntry])])).evidence_quotes =
      [⟨strL "a quote with plenty of characters", []⟩] ∧
    getField sectionNullEntry (strL "section") = some Json.null ∧
    (normalizeResult (Json.obj
        [(strL "evidence_quotes", Json.arr [sectionNullEntry])])).evidence_quotes ≠
      [sentinelQuote] := by
  refine ⟨by rfl, by rfl, ?_⟩
  rw [show (normalizeResult (Json.obj
      [(strL "evidence_quotes", Json.arr [sectionNullEntry])])).evidence_quotes =
      [⟨strL "a quote with plenty of characters", []⟩] from rfl]
  decide

/-- C6 (amended).  The normalized `evidence_quotes` keeps, in input order and
capped at eight, exactly the entries whose `quote` field is a string with
trimmed length over ten characters (the `section` field is coerced to a
trimmed string when it is a string and to the empty string otherwise, but is
not part of the filter); when that filtered list is empty the result is
exactly the single sentinel entry, so the list is never empty.  The spec's
concrete example (`evidence_quotes: []` yields the sentinel) holds. -/
theorem normalizeEvidence_amended :
    (∀ value, normalizeEvidence value ≠ []) ∧
    (∀ value, (normalizeEvidence value).length ≤ 8) ∧
    (∀ value,
      ((((jsonArray value).map coerceEvidence).filter fun q =>
          10 < q.quote.length).take 8 = [] →
        normalizeEvidence value = [sentinelQuote]) ∧
      (∀ l, (((jsonArray value).map coerceEvidence).filter fun q =>
          10 < q.quote.length).take 8 = l → l ≠ [] →
        normalizeEvidence value = l)) ∧
    (∀ value q, q ∈ normalizeEvidence value →
      10 < q.quote.length ∧ jsTrim q.quote = q.quote) ∧
    (normalizeResult (Json.obj
        [(strL "evidence_quotes", Json.arr [])])).evidence_quotes =
      [sentinelQuote] := by
  refine ⟨?_, ?_, ?_, ?_, by rfl⟩
  · intro value; exact (nev_inv value).1
  · intro value; exact (nev_inv value).2.1
  · intro value
    constructor
    · intro h
      unfold normalizeEvidence
      rw [h]
      rfl
    · intro l h hne
      unfold normalizeEvidence
      rw [h]
      have hf : ¬(l.isEmpty = true) := by simpa [List.isEmpty_iff] using hne
      rw [if_neg hf]
  · intro value q hq
    obtain ⟨h1, h2, _⟩ := (nev_inv value).2.2 q hq
    exact ⟨h2, h1⟩

/-- Witness for C6 at a concrete input: one long-quoted entry is kept as
the single evidence entry (trimmed), not replaced by the sentinel. -/
theorem normalizeEvidence_amended_witness :
    normalizeEvidence (some (Json.arr
      [Json.obj [(strL "quote", Json.str (strL " twelve chars at least ")),
                 (strL "section", Json.str (strL "Q1"))]])) =
      [⟨strL "twelve chars at least", strL "Q1"⟩] :=
  (normalizeEvidence_amended.2.2.1 (some (Json.arr
      [Json.obj [(strL "quote", Json.str (strL " twelve chars at least ")),
                 (strL "section", Json.str (strL "Q1"))]]))).2
    [⟨strL "twelve chars at least", strL "Q1"⟩] (by rfl) (by decide)

/-- C7. The Result Normalizer is idempotent: re-normalizing the JSON
encoding of a normalized Result returns the same Result, for every input
JSON value.  Confirmed. -/
theorem normalizeResult_idem (v : Json) :
    normalizeResult (AnalysisResult.toJson (normalizeResult v)) =
      normalizeResult v := by
  refine AnalysisResult.ext ?_ ?_ ?_ ?_ ?_ ?_ ?_ ?_ ?_ ?_
  · show normalizeEnum (getField (AnalysisResult.toJson (normalizeResult v))
        (strL "tone")) toneAllowed (strL "neutral") = (normalizeResult v).tone
    rw [show getField (AnalysisResult.toJson (normalizeResult v)) (strL "tone") =
        some (Json.str (normalizeResult v).tone) from rfl]
    exact enum_stable _ _ _
      (enum_mem (getField v (strL "tone")) toneAllowed (strL "neutral") (by decide))
  · show normalizeNullableString (getField (AnalysisResult.toJson (normalizeResult v))
        (strL "tone_summary")) = (normalizeResult v).tone_summary
    rw [show getField (AnalysisResult.toJson (normalizeResult v)) (strL "tone_summary") =
        some (optStrJson (normalizeResult v).tone_summary) from rfl]
    exact nns_stable _ (fun s hs => nns_inv (getField v (strL "tone_summary")) hs)
  · show normalizeEnum (getField (AnalysisResult.toJson (normalizeResult v))
        (strL "confidence")) confidenceAllowed (strL "low") = (normalizeResult v).confidence
    rw [show getField (AnalysisResult.toJson (normalizeResult v)) (strL "confidence") =
        some (Json.str (normalizeResult v).confidence) from rfl]
    exact enum_stable _ _ _
      (enum_mem (getField v (strL "confidence")) confidenceAllowed (strL "low") (by decide))
  · show normalizeStringArray (getField (AnalysisResult.toJson (normalizeResult v))
        (strL "key_positives")) 6 = (normalizeResult v).key_positives
    rw [show getField (AnalysisResult.toJson (normalizeResult v)) (strL "key_positives") =
        some (Json.arr ((normalizeResult v).key_positives.map Json.str)) from rfl]
    exact nsa_stable _ _ (nsa_inv (getField v (strL "key_positives")) 6).1
      (nsa_inv (getField v (strL "key_positives")) 6).2
  · show normalizeStringArray (getField (AnalysisResult.toJson (normalizeResult v))
        (strL "key_concerns")) 6 = (normalizeResult v).key_concerns
    rw [show getField (AnalysisResult.toJson (normalizeResult v)) (strL "key_concerns") =
        some (Json.arr ((normalizeResult v).key_concerns.map Json.str)) from rfl]
    exact nsa_stable _ _ (nsa_inv (getField v (strL "key_concerns")) 6).1
      (nsa_inv (getField v (strL "key_concerns")) 6).2
  · refine ForwardGuidance.ext ?_ ?_ ?_ ?_
    · show normalizeNullableString ((getField (AnalysisResult.toJson (normalizeResult v))
          (strL "forward_guidance")).bind fun j => getField j (strL "revenue")) =
        (normalizeResult v).forward_guidance.revenue
      rw [show ((getField (AnalysisResult.toJson (normalizeResult v))
          (strL "forward_guidance")).bind fun j => getField j (strL "revenue")) =
          some (optStrJson (normalizeResult v).forward_guidance.revenue) from rfl]
      exact nns_stable _ (fun s hs => nns_inv
        ((getField v (strL "forward_guidance")).bind fun j => getField j (strL "revenue")) hs)
    · show normalizeNullableString ((getField (AnalysisResult.toJson (normalizeResult v))
          (strL "forward_guidance")).bind fun j => getField j (strL "margin")) =
        (normalizeResult v).forward_guidance.margin
      rw [show ((getField (AnalysisResult.toJson (normalizeResult v))
          (strL "forward_guidance")).bind fun j => getField j (strL "margin")) =
          some (optStrJson (normalizeResult v).forward_guidance.margin) from rfl]
      exact nns_stable _ (fun s hs => nns_inv
        ((getField v (strL "forward_guidance")).bind fun j => getField j (strL "margin")) hs)
    · show normalizeNullableString ((getField (AnalysisResult.toJson (normalizeResult v))
          (strL "forward_guidance")).bind fun j => getField j (strL "capex")) =
        (normalizeResult v).forward_guidance.capex
      rw [show ((getField (AnalysisResult.toJson (normalizeResult v))
          (strL "forward_guidance")).bind fun j => getField j (strL "capex")) =
          some (optStrJson (normalizeResult v).forward_guidance.capex) from rfl]
      exact nns_stable _ (fun s hs => nns_inv
        ((getField v (strL "forward_guidance")).bind fun j => getField j (strL "capex")) hs)
    · show normalizeNullableString ((getField (AnalysisResult.toJson (normalizeResult v))
          (strL "forward_guidance")).bind fun j => getField j (strL "tax_rate")) =
        (normalizeResult v).forward_guidance.tax_rate
      rw [show ((getField (AnalysisResult.toJson (normalizeResult v))
          (strL "forward_guidance")).bind fun j => getField j (strL "tax_rate")) =
          some (optStrJson (normalizeResult v).forward_guidance.tax_rate) from rfl]
      exact nns_stable _ (fun s hs => nns_inv
        ((getField v (strL "forward_guidance")).bind fun j => getField j (strL "tax_rate")) hs)
  · show normalizeNullableString (getField (AnalysisResult.toJson (normalizeResult v))
        (strL "capacity_utilization_trends")) = (normalizeResult v).capacity_utilization_trends
    rw [show getField (AnalysisResult.toJson (normalizeResult v))
        (strL "capacity_utilization_trends") =
        some (optStrJson (normalizeResult v).capacity_utilization_trends) from rfl]
    exact nns_stable _
      (fun s hs => nns_inv (getField v (strL "capacity_utilization_trends")) hs)
  · show normalizeStringArray (getField (AnalysisResult.toJson (normalizeResult v))
        (strL "growth_initiatives")) 6 = (normalizeResult v).growth_initiatives
    rw [show getField (AnalysisResult.toJson (normalizeResult v)) (strL "growth_initiatives") =
        some (Json.arr ((normalizeResult v).growth_initiatives.map Json.str)) from rfl]
    exact nsa_stable _ _ (nsa_inv (getField v (strL "growth_initiatives")) 6).1
      (nsa_inv (getField v (strL "growth_initiatives")) 6).2
  · show normalizeEvidence (getField (AnalysisResult.toJson (normalizeResult v))
        (strL "evidence_quotes")) = (normalizeResult v).evidence_quotes
    rw [show getField (AnalysisResult.toJson (normalizeResult v)) (strL "evidence_quotes") =
        some (Json.arr ((normalizeResult v).evidence_quotes.map evidenceJson)) from rfl]
    exact nev_stable _ (nev_inv (getField v (strL "evidence_quotes"))).1
      (nev_inv (getField v (strL "evidence_quotes"))).2.1
      (nev_inv (getField v (strL "evidence_quotes"))).2.2
  · show normalizeStringArray (getField (AnalysisResult.toJson (normalizeResult v))
        (strL "missing_sections")) 12 = (normalizeResult v).missing_sections
    rw [show getField (AnalysisResult.toJson (normalizeResult v)) (strL "missing_sections") =
        some (Json.arr ((normalizeResult v).missing_sections.map Json.str)) from rfl]
    exact nsa_stable _ _ (nsa_inv (getField v (strL "missing_sections")) 12).1
      (nsa_inv (getField v (strL "missing_sections")) 12).2

/-! ### Documents, upload, multimodal parts and the analyze endpoint
(`src/unnamed/part_000`)

Raw file payloads are modeled as byte lists.  The source stores the retained
payload and the attachment data base64-encoded (`buffer.toString("base64")`,
decoded again by `Buffer.from(data, "base64")`); base64 encoding is a
bijection on byte strings, so the models carry the underlying bytes
directly.  The network download and the OCR model call are oracles. -/

/-- Server configuration, with the source defaults. -/
structure Config where
  maxInputChars : Nat := 160000
  minAnalysisSignal : Nat := 40
  maxMultimodalDocs : Nat := 3
  maxMultimodalBytes : Nat := 15 * 1024 * 1024
  enableOcrRecoveryOnAnalyze : Bool := false

/-- The default configuration (no environment overrides). -/
def cfgDefault : Config := {}

/-- A stored Document.  `cloudinaryUrl` is `none` for a missing/falsy URL;
`sourceForAnalysis` is the retained raw payload kept for weak PDFs. -/
structure Doc where
  id : Str
  name : Str
  mimetype : Str
  size : Nat
  uploadedAt : Str
  text : Str
  textChars : Nat
  textWords : Nat
  cloudinaryUrl : Option Str
  sourceForAnalysis : Option (List Nat)
deriving DecidableEq

/-- A transient unit passed to the model: inline text or an attached raw
file. -/
inductive DocumentPart where
  | text (s : Str)
  | inlineData (mimeType : Str) (data : List Nat)
deriving DecidableEq

/-- One entry of the InsufficientContent diagnostic details array. -/
structure DocDetail where
  id : Str
  name : Str
  textChars : Nat
  textPreview : Str
deriving DecidableEq

/-- Document construction in the upload handler: extracted text is
normalized, counts are derived from it, and the raw payload is retained
exactly when the file is a PDF whose normalized text has weak signal. -/
def mkUploadDoc (cfg : Config) (id name mimetype : Str) (size : Nat)
    (uploadedAt : Str) (cloudinaryUrl : Option Str) (buffer : List Nat)
    (extracted : Str) : Doc :=
  let normalizedText := normalizeExtractedText extracted
  { id := id
    name := name
    mimetype := mimetype
    size := size
    uploadedAt := uploadedAt
    text := normalizedText
    textChars := normalizedText.length
    textWords := if normalizedText.isEmpty then 0 else (jsSplitWs normalizedText).length
    cloudinaryUrl := cloudinaryUrl
    sourceForAnalysis :=
      if strHas mimetype (strL "pdf") ∧
          getSignalLength normalizedText < cfg.minAnalysisSignal then some buffer
      else none }

/-- `isPdfDoc` from the server. -/
def isPdfDoc (d : Doc) : Bool :=
  (strL ".pdf").isSuffixOf (lowerStr d.name) || strHas d.mimetype (strL "pdf")

/-- `isWeakPdfDoc` from the server. -/
def isWeakPdfDoc (cfg : Config) (d : Doc) : Bool :=
  isPdfDoc d && decide (getSignalLength d.text < cfg.minAnalysisSignal)

/-- `getDocumentBuffer`: the retained payload when present, otherwise a
download from the storage URL (`none` for a falsy URL; a failed fetch
throws, modeled by the oracle's `Except`). -/
def getDocumentBuffer (download : Str → Except Str (List Nat)) (d : Doc) :
    Except Str (Option (List Nat)) :=
  match d.sourceForAnalysis with
  | some bytes => .ok (some bytes)
  | none =>
    match d.cloudinaryUrl with
    | none => .ok none
    | some url => (download url).map some

/-- The body of one iteration of the `buildDocumentParts` loop: a thrown,
missing or empty buffer, or one over the byte cap, contributes nothing; an
acceptable buffer contributes a caption part and an attachment part. -/
def partsForDoc (cfg : Config) (download : Str → Except Str (List Nat))
    (d : Doc) : List DocumentPart :=
  match getDocumentBuffer download d with
  | .error _ => []
  | .ok none => []
  | .ok (some buf) =>
    if buf.isEmpty || decide (cfg.maxMultimodalBytes < buf.length) then []
    else
      [DocumentPart.text (strL "Source Document: " ++ d.name),
       DocumentPart.inlineData (strL "application/pdf") buf]

/-- `buildDocumentParts` from the server: the first `maxMultimodalDocs`
PDF documents of the selection, in order, each contributing its parts. -/
def buildDocumentParts (cfg : Config) (download : Str → Except Str (List Nat))
    (docs : List Doc) : List DocumentPart :=
  ((docs.filter isPdfDoc).take cfg.maxMultimodalDocs).foldl
    (fun parts d => parts ++ partsForDoc cfg download d) []

/-- One document of the OCR recovery loop (`recoverWeakPdfDocuments` body):
failures and empty results leave the document unchanged; a nonempty
normalized OCR text overwrites `text`, `textChars` and `textWords`
together.  The `ocr` oracle models `extractTextFromPdfBufferWithGemini`,
which returns a string and degrades every failure to the empty string. -/
def tryRecoverDoc (_cfg : Config) (download : Str → Except Str (List Nat))
    (ocr : List Nat → Str) (d : Doc) : Doc :=
  match getDocumentBuffer download d with
  | .error _ => d
  | .ok none => d
  | .ok (some buf) =>
    if buf.isEmpty then d
    else
      let normalizedText := normalizeExtractedText (ocr buf)
      if normalizedText.isEmpty then d
      else
        { d with
          text := normalizedText
          textChars := normalizedText.length
          textWords :=
            ((jsSplitWs normalizedText).filter fun t => !t.isEmpty).length }

/-- `recoverWeakPdfDocuments`: recovery applies to the weak PDF documents of
the selection and leaves the others alone (the in-place mutation of the
source is modeled by mapping over the selection; the accompanying store
update writes the same values). -/
def recoverWeakPdfDocuments (cfg : Config)
    (download : Str → Except Str (List Nat)) (ocr : List Nat → Str)
    (docs : List Doc) : List Doc :=
  docs.map fun d =>
    if isWeakPdfDoc cfg d then tryRecoverDoc cfg download ocr d else d

/-- The InsufficientContent message of the analyze handler. -/
def insufficientMsg : Str :=
  strL "No readable transcript content found after extraction and OCR fallback, and source files could not be attached for multimodal analysis."

/-- Lines 110 to 131 of the analyze handler: combined text and signal,
conditional DocumentPart construction, choice of the analysis text, and the
InsufficientContent failure. -/
def analyzeStep (cfg : Config) (download : Str → Except Str (List Nat))
    (selected : List Doc) :
    Except (Str × List DocDetail) (Str × List DocumentPart) :=
  let extractedOnly := List.intercalate (strL "\n\n") (selected.map Doc.text)
  let extractedSignal := getSignalLength extractedOnly
  let documentParts :=
    if extractedSignal < cfg.minAnalysisSignal then
      buildDocumentParts cfg download selected
    else []
  let combined :=
    (List.intercalate (strL "\n\n---\n\n")
      (selected.map fun d =>
        strL "Document: " ++ d.name ++ strL "\n" ++ d.text)).take cfg.maxInputChars
  let analysisText :=
    if extractedSignal < cfg.minAnalysisSignal then extractedOnly else combined
  if extractedSignal < cfg.minAnalysisSignal ∧ documentParts = [] then
    .error (insufficientMsg,
      selected.map fun d => ⟨d.id, d.name, d.textChars, d.text.take 120⟩)
  else .ok (analysisText, documentParts)

/-! ### The analysis runner (`runOptionBAnalysis` in `analyzer.js`) -/

/-- The fixed text substituted when no usable transcript text exists. -/
def noticeText : Str :=
  strL "No reliable extracted transcript text is available. Analyze the attached source document files directly."

/-- The prompt passed to the model.  `buildPrompt` of the source wraps a
fixed instruction template (extraction rules and output schema) around
exactly these parameters and is injective in them, so the prompt is modeled
by the parameter record; `retryStricter` models the stricter instruction
appended for the single retry. -/
structure Prompt where
  transcriptText : Str
  lowSignal : Bool
  hasAttachedDocs : Bool
  retryStricter : Bool
deriving DecidableEq

/-- The effective transcript text of `runOptionBAnalysis`: the trimmed
combined text when it has at least ten characters, the fixed notice
otherwise. -/
def effectiveTextOf (combinedText : Str) : Str :=
  if 10 ≤ (jsTrim combinedText).length then jsTrim combinedText else noticeText

/-- Failures of the analysis runner. -/
inductive RunErr where
  | missingKey
  | tooLittle
  | parseFail (e : JsonSafeErr)
  | modelFailure (msg : Str)
deriving DecidableEq

/-- The message of the missing-key failure. -/
def missingKeyMsg : Str := strL "GEMINI_API_KEY is missing"

/-- The message of the too-little-text failure. -/
def tooLittleMsg : Str :=
  strL "Transcript extraction returned too little text. Upload a text-based transcript (PDF/DOCX/TXT with selectable text)."

/-- The message of the empty-output failure. -/
def emptyOutputMsg : Str := strL "Model returned empty output"

/-- The `error.message` seen by the analyze handler's catch block. -/
def errMessageOf : RunErr → Str
  | .missingKey => missingKeyMsg
  | .tooLittle => tooLittleMsg
  | .parseFail .emptyOutput => emptyOutputMsg
  | .parseFail (.invalidModelOutput m) => m
  | .modelFailure m => m

/-- `runOptionBAnalysis` from `analyzer.js`.  The `gen` oracle models
`model.generateContent` returning the raw response text (or throwing). -/
def runOptionB (hasApiKey retryUnderfilled : Bool)
    (gen : Prompt → List DocumentPart → Except Str Str)
    (combinedText : Str) (documentParts : List DocumentPart) :
    Except RunErr AnalysisResult :=
  if !hasApiKey then .error .missingKey
  else
    let cleanedText := jsTrim combinedText
    let hasText := decide (10 ≤ cleanedText.length)
    let hasDocs := !documentParts.isEmpty
    if !hasText && !hasDocs then .error .tooLittle
    else
      let prompt : Prompt :=
        ⟨effectiveTextOf combinedText,
         !hasText || decide (cleanedText.length < 400), hasDocs, false⟩
      match gen prompt documentParts with
      | .error m => .error (.modelFailure m)
      | .ok raw =>
        match parseJsonSafely raw with
        | .error e => .error (.parseFail e)
        | .ok parsed =>
          let result := normalizeResult parsed
          if retryUnderfilled && isLikelyUnderfilled result then
            match gen { prompt with retryStricter := true } documentParts with
            | .error m => .error (.modelFailure m)
            | .ok raw2 =>
              match parseJsonSafely raw2 with
              | .error e => .error (.parseFail e)
              | .ok parsed2 => .ok (normalizeResult parsed2)
          else .ok result

/-! ### The analyze endpoint -/

/-- One stored analysis run. -/
structure AnalysisRun where
  runId : Str
  createdAt : Str
  documentIds : List Str
  documentNames : List Str
  result : AnalysisResult
deriving DecidableEq

/-- The responses of `POST /api/analyze` (HTTP 400, 404, 400 with details,
200, 429, 500 respectively). -/
inductive AnalyzeResponse where
  | badRequest (error : Str)
  | notFound (error : Str)
  | insufficientContent (error : Str) (details : List DocDetail)
  | okRun (runId : Str) (result : AnalysisResult) (documents : List Doc)
  | rateLimited (error : Str) (retryAfterSeconds : Option Nat)
  | serverError (error : Str)
deriving DecidableEq

/-- `documents.get(id)` over the store, modeled as an association list. -/
def lookupStore (store : List (Str × Doc)) (id : Str) : Option Doc :=
  match store with
  | [] => none
  | (k, d) :: rest => if k = id then some d else lookupStore rest id

/-- The `POST /api/analyze` handler.  `body` is the decoded `documentIds`
field (`none` when missing or not an array).  Returns the response and the
updated run store; a run is appended only on success. -/
def analyzeEndpoint (cfg : Config) (download : Str → Except Str (List Nat))
    (ocr : List Nat → Str) (hasApiKey retryUnderfilled : Bool)
    (gen : Prompt → List DocumentPart → Except Str Str)
    (docsStore : List (Str × Doc)) (runs : List (Str × AnalysisRun))
    (body : Option (List Str)) (runId createdAt : Str) :
    AnalyzeResponse × List (Str × AnalysisRun) :=
  match body with
  | none => (.badRequest (strL "documentIds must be a non-empty array"), runs)
  | some ids =>
    if ids.isEmpty then
      (.badRequest (strL "documentIds must be a non-empty array"), runs)
    else
      let selected0 := ids.filterMap (lookupStore docsStore)
      if selected0.isEmpty then
        (.notFound (strL "No matching documents found"), runs)
      else
        let selected :=
          if cfg.enableOcrRecoveryOnAnalyze then
            recoverWeakPdfDocuments cfg download ocr selected0
          else selected0
        match analyzeStep cfg download selected with
        | .error (msg, details) => (.insufficientContent msg details, runs)
        | .ok (analysisText, documentParts) =>
          match runOptionB hasApiKey retryUnderfilled gen analysisText documentParts with
          | .ok result =>
            (.okRun runId result selected,
             runs ++ [(runId,
               ⟨runId, createdAt, selected.map Doc.id, selected.map Doc.name,
                result⟩)])
          | .error e =>
            match parseGeminiQuotaError (errMessageOf e) with
            | some q => (.rateLimited q.message q.retryAfterSeconds, runs)
            | none => (.serverError (errMessageOf e), runs)

/-! ### Helper lemmas about signal length and part building -/

/-- Signal length is additive over concatenation. -/
theorem getSignalLength_append (a b : Str) :
    getSignalLength (a ++ b) = getSignalLength a + getSignalLength b := by
  unfold getSignalLength
  rw [List.filter_append, List.length_append]

/-- Unfolding of `intercalate` on a two-or-more element list. -/
theorem intercalate_cons2 (sep a b : Str) (t : List Str) :
    List.intercalate sep (a :: b :: t) = a ++ sep ++ List.intercalate sep (b :: t) := by
  simp [List.intercalate, List.intersperse, List.append_assoc]

/-- The signal length of texts joined by the blank-line separator is the sum
of the individual signal lengths (the separator is whitespace). -/
theorem getSignalLength_intercalate_nn (l : List Str) :
    getSignalLength (List.intercalate (strL "\n\n") l) =
      (l.map getSignalLength).sum := by
  induction l with
  | nil => rfl
  | cons a t ih =>
    cases t with
    | nil => simp [List.intercalate, List.intersperse, getSignalLength]
    | cons b t2 =>
      rw [intercalate_cons2, getSignalLength_append, getSignalLength_append, ih]
      have hsep : getSignalLength (strL "\n\n") = 0 := by decide
      simp [hsep]

/-- A fold that appends per-element parts equals the joined mapped list. -/
theorem foldl_append_parts (f : Doc → List DocumentPart) :
    ∀ (l : List Doc) (init : List DocumentPart),
      l.foldl (fun parts d => parts ++ f d) init = init ++ (l.map f).flatten := by
  intro l
  induction l with
  | nil => intro init; simp
  | cons d t ih =>
    intro init
    simp only [List.foldl_cons, List.map_cons, List.flatten]
    rw [ih, List.append_assoc]

/-- C10.  In multimodal mode the attachment candidates are exactly the first
`maxMultimodalDocs` PDF documents of the selection in selection order, fixed
before any retrieval: the built parts are the concatenation of each
candidate's parts (a failed, empty or oversized candidate contributing
nothing, without its slot passing to a later PDF), and every built part
comes from a PDF document among those candidates — a non-PDF document is
never attached.  Confirmed. -/
theorem buildDocumentParts_spec (cfg : Config)
    (download : Str → Except Str (List Nat)) (docs : List Doc) :
    buildDocumentParts cfg download docs =
      (((docs.filter isPdfDoc).take cfg.maxMultimodalDocs).map
        (partsForDoc cfg download)).flatten ∧
    (∀ p ∈ buildDocumentParts cfg download docs,
      ∃ d ∈ (docs.filter isPdfDoc).take cfg.maxMultimodalDocs,
        isPdfDoc d = true ∧ p ∈ partsForDoc cfg download d) := by
  have h1 : buildDocumentParts cfg download docs =
      (((docs.filter isPdfDoc).take cfg.maxMultimodalDocs).map
        (partsForDoc cfg download)).flatten := by
    unfold buildDocumentParts
    rw [foldl_append_parts]
    simp
  refine ⟨h1, ?_⟩
  intro p hp
  rw [h1] at hp
  obtain ⟨parts, hparts, hpin⟩ := List.mem_flatten.mp hp
  obtain ⟨d, hd, hfd⟩ := List.mem_map.mp hparts
  refine ⟨d, hd, ?_, by rw [hfd]; exact hpin⟩
  exact (List.mem_filter.mp (List.mem_of_mem_take hd)).2

/-- A PDF document with a retained small payload. -/
def wDocPdf : Doc :=
  { id := strL "p1", name := strL "a.pdf", mimetype := strL "application/pdf",
    size := 3, uploadedAt := strL "t0", text := [], textChars := 0,
    textWords := 0, cloudinaryUrl := none, sourceForAnalysis := some [1, 2, 3] }

/-- A plain-text document with no retained payload and no URL. -/
def wDocTxt : Doc :=
  { id := strL "t1", name := strL "b.txt", mimetype := strL "text/plain",
    size := 4, uploadedAt := strL "t0", text := strL "tiny", textChars := 4,
    textWords := 1, cloudinaryUrl := none, sourceForAnalysis := none }

/-- A download oracle on which every fetch fails. -/
def wDl : Str → Except Str (List Nat) := fun _ => .error (strL "network down")

/-- Witness for C10 at a concrete input: with a text file first in the
selection, only the PDF is attached, contributing its caption and payload
parts. -/
theorem buildDocumentParts_spec_witness :
    buildDocumentParts cfgDefault wDl [wDocTxt, wDocPdf] =
      [DocumentPart.text (strL "Source Document: a.pdf"),
       DocumentPart.inlineData (strL "application/pdf") [1, 2, 3]] := by
  rw [(buildDocumentParts_spec cfgDefault wDl [wDocTxt, wDocPdf]).1]
  rfl

/-- C1.  When the combined signal length of the selected documents'
concatenated extracted texts reaches the analysis threshold, no
DocumentParts are constructed or sent, and the text sent to the model is the
per-document `Document: <name>` blocks joined by the separator, truncated to
the combined character budget.  Confirmed. -/
theorem analyze_text_mode (cfg : Config)
    (download : Str → Except Str (List Nat)) (selected : List Doc)
    (h : cfg.minAnalysisSignal ≤ ((selected.map Doc.text).map getSignalLength).sum) :
    analyzeStep cfg download selected =
      .ok ((List.intercalate (strL "\n\n---\n\n")
        (selected.map fun d =>
          strL "Document: " ++ d.name ++ strL "\n" ++ d.text)).take cfg.maxInputChars,
        []) := by
  have hnlt : ¬(getSignalLength (List.intercalate (strL "\n\n")
      (selected.map Doc.text)) < cfg.minAnalysisSignal) := by
    rw [getSignalLength_intercalate_nn]
    omega
  have hfalse : (getSignalLength (List.intercalate (strL "\n\n")
      (selected.map Doc.text)) < cfg.minAnalysisSignal) = False := eq_false hnlt
  simp only [analyzeStep, hfalse, if_false, false_and, and_false]

/-- A plain-text document with strong signal (fifty letters). -/
def wDocText50 : Doc :=
  { id := strL "t2", name := strL "t.txt", mimetype := strL "text/plain",
    size := 50, uploadedAt := strL "t0",
    text := strL "abcdefghijklmnopqrstuvwxyzabcdefghijklmnopqrstuvwx",
    textChars := 50, textWords := 1, cloudinaryUrl := none,
    sourceForAnalysis := none }

/-- Witness for C1 at a concrete input: a fifty-character document is
analyzed in text mode with no attachments. -/
theorem analyze_text_mode_witness :
    analyzeStep cfgDefault wDl [wDocText50] =
      .ok (strL "Document: t.txt\nabcdefghijklmnopqrstuvwxyzabcdefghijklmnopqrstuvwx",
        []) := by
  rw [analyze_text_mode cfgDefault wDl [wDocText50] (by decide)]
  rfl

/-- A weak PDF document whose extracted text is nonempty (thirteen
characters, below the default threshold of forty) and whose raw payload is
retained. -/
def wDocWeakPdf : Doc :=
  { id := strL "p2", name := strL "a.pdf", mimetype := strL "application/pdf",
    size := 3, uploadedAt := strL "t0", text := strL "lowsignaltext",
    textChars := 13, textWords := 1, cloudinaryUrl := none,
    sourceForAnalysis := some [1, 2, 3] }

/-- Counterexample to C2 as stated: in multimodal mode the text handed to
the model call is `extractedOnly`, the concatenation of the selected
documents' extracted texts — here it equals the document's extracted text,
which also survives as the effective transcript text because its trimmed
length reaches ten — so the string passed as the text input is not free of
the documents' extracted text. -/
theorem analyze_multimodal_counterexample :
    analyzeStep cfgDefault wDl [wDocWeakPdf] =
      .ok (strL "lowsignaltext",
        [DocumentPart.text (strL "Source Document: a.pdf"),
         DocumentPart.inlineData (strL "application/pdf") [1, 2, 3]]) ∧
    wDocWeakPdf.text = strL "lowsignaltext" ∧
    effectiveTextOf (strL "lowsignaltext") = wDocWeakPdf.text ∧
    wDocWeakPdf.text ≠ [] := by
  refine ⟨by rfl, by rfl, by rfl, by decide⟩

/-- C2 (amended).  In multimodal mode (combined signal length below the
analysis threshold) the combined string passed as the text input to the
model is the documents' extracted texts joined by blank lines — without the
`Document:` headers and without truncation — and it is replaced by a fixed
no-transcript notice only when its trimmed length is below ten characters;
it is therefore not in general free of the documents' extracted text. -/
theorem analyze_multimodal_text (cfg : Config)
    (download : Str → Except Str (List Nat)) (selected : List Doc)
    (h : getSignalLength (List.intercalate (strL "\n\n")
      (selected.map Doc.text)) < cfg.minAnalysisSignal) :
    (∀ t parts, analyzeStep cfg download selected = .ok (t, parts) →
      t = List.intercalate (strL "\n\n") (selected.map Doc.text)) ∧
    ((jsTrim (List.intercalate (strL "\n\n") (selected.map Doc.text))).length < 10 →
      effectiveTextOf (List.intercalate (strL "\n\n") (selected.map Doc.text)) =
        noticeText) := by
  constructor
  · intro t parts hok
    have htrue : (getSignalLength (List.intercalate (strL "\n\n")
        (selected.map Doc.text)) < cfg.minAnalysisSignal) = True := eq_true h
    simp only [analyzeStep, htrue, if_true, true_and] at hok
    by_cases hb : buildDocumentParts cfg download selected = []
    · rw [if_pos hb] at hok
      exact absurd hok (by simp)
    · rw [if_neg hb] at hok
      have := (Except.ok.inj hok)
      exact (congrArg Prod.fst this).symm
  · intro hlt
    unfold effectiveTextOf
    rw [if_neg (by omega)]

/-- Witness for C2 at a concrete input: the weak PDF document is analyzed in
multimodal mode and the text handed to the model is its extracted text
joined (here: alone). -/
theorem analyze_multimodal_text_witness :
    strL "lowsignaltext" =
      List.intercalate (strL "\n\n") ([wDocWeakPdf].map Doc.text) :=
  (analyze_multimodal_text cfgDefault wDl [wDocWeakPdf] (by decide)).1
    (strL "lowsignaltext")
    [DocumentPart.text (strL "Source Document: a.pdf"),
     DocumentPart.inlineData (strL "application/pdf") [1, 2, 3]]
    (by rfl)

/-- The insufficiency of `analyzeStep`: in multimodal mode with no buildable
DocumentParts, the step fails with the InsufficientContent payload listing
one entry per selected document. -/
theorem analyzeStep_insufficient (cfg : Config)
    (download : Str → Except Str (List Nat)) (selected : List Doc)
    (h1 : getSignalLength (List.intercalate (strL "\n\n")
      (selected.map Doc.text)) < cfg.minAnalysisSignal)
    (h2 : buildDocumentParts cfg download selected = []) :
    analyzeStep cfg download selected =
      .error (insufficientMsg,
        selected.map fun d => ⟨d.id, d.name, d.textChars, d.text.take 120⟩) := by
  have htrue : (getSignalLength (List.intercalate (strL "\n\n")
      (selected.map Doc.text)) < cfg.minAnalysisSignal) = True := eq_true h1
  simp only [analyzeStep, htrue, if_true, true_and]
  rw [if_pos h2]

/-- C3.  When multimodal mode is entered and zero DocumentParts could be
built, the analyze endpoint fails with the InsufficientContent response
(HTTP 400) whose details array has exactly one entry per selected document,
carrying that document's id, name, stored character count and a 120
character text preview; the run store is unchanged, so no AnalysisRun is
created.  Confirmed. -/
theorem analyze_insufficient (cfg : Config)
    (download : Str → Except Str (List Nat)) (ocr : List Nat → Str)
    (hasApiKey retryUnderfilled : Bool)
    (gen : Prompt → List DocumentPart → Except Str Str)
    (docsStore : List (Str × Doc)) (runs : List (Str × AnalysisRun))
    (ids : List Str) (runId createdAt : Str) (selected : List Doc)
    (hne : ids.isEmpty = false)
    (hsome : (ids.filterMap (lookupStore docsStore)).isEmpty = false)
    (hsel : (if cfg.enableOcrRecoveryOnAnalyze then
        recoverWeakPdfDocuments cfg download ocr
          (ids.filterMap (lookupStore docsStore))
      else ids.filterMap (lookupStore docsStore)) = selected)
    (h1 : getSignalLength (List.intercalate (strL "\n\n")
      (selected.map Doc.text)) < cfg.minAnalysisSignal)
    (h2 : buildDocumentParts cfg download selected = []) :
    analyzeEndpoint cfg download ocr hasApiKey retryUnderfilled gen docsStore
        runs (some ids) runId createdAt =
      (.insufficientContent insufficientMsg
        (selected.map fun d => ⟨d.id, d.name, d.textChars, d.text.take 120⟩),
       runs) ∧
    (selected.map fun d =>
      (⟨d.id, d.name, d.textChars, d.text.take 120⟩ : DocDetail)).length =
      selected.length := by
  constructor
  · have hstep := analyzeStep_insufficient cfg download selected h1 h2
    simp only [analyzeEndpoint, hne, Bool.false_eq_true, if_false, hsome, hsel,
      hstep]
  · exact List.length_map _ _

/-- An OCR oracle returning nothing readable. -/
def wOcr : List Nat → Str := fun _ => []

/-- A model oracle that always fails. -/
def wGen : Prompt → List DocumentPart → Except Str Str :=
  fun _ _ => .error (strL "boom")

/-- Witness for C3 at a concrete input: one weak text document, nothing
attachable, yields the InsufficientContent response with its single detail
entry and leaves the run store empty. -/
theorem analyze_insufficient_witness :
    analyzeEndpoint cfgDefault wDl wOcr false false wGen
        [(strL "t1", wDocTxt)] [] (some [strL "t1"]) (strL "r1") (strL "now") =
      (.insufficientContent insufficientMsg
        [⟨strL "t1", strL "b.txt", 4, strL "tiny"⟩], []) := by
  have h := (analyze_insufficient cfgDefault wDl wOcr false false wGen
    [(strL "t1", wDocTxt)] [] [strL "t1"] (strL "r1") (strL "now") [wDocTxt]
    (by rfl) (by rfl) (by rfl) (by decide) (by rfl)).1
  rw [h]
  rfl

/-- The Document Store invariant of the claim. -/
def docInvariant (d : Doc) : Prop :=
  d.textChars = d.text.length ∧ (d.textWords = 0 ↔ d.text = [])

/-- C9.  Every Document satisfies `textChars = length(text)` and
`textWords = 0` exactly when the text is empty, both as created at upload
and after the only mutation, OCR recovery, which overwrites `text`,
`textChars` and `textWords` together (and leaves the document unchanged when
recovery produces nothing).  Confirmed. -/
theorem document_invariant :
    (∀ cfg id name mimetype size uploadedAt url buffer extracted,
      docInvariant (mkUploadDoc cfg id name mimetype size uploadedAt url
        buffer extracted)) ∧
    (∀ cfg download ocr d, docInvariant d →
      docInvariant (tryRecoverDoc cfg download ocr d)) := by
  constructor
  · intro cfg id name mimetype size uploadedAt url buffer extracted
    refine ⟨rfl, ?_⟩
    show (if (normalizeExtractedText extracted).isEmpty then 0
        else (jsSplitWs (normalizeExtractedText extracted)).length) = 0 ↔
      normalizeExtractedText extracted = []
    cases hn : normalizeExtractedText extracted with
    | nil => simp [hn]
    | cons c t =>
      simp only [hn, List.isEmpty_cons, Bool.false_eq_true, if_false]
      constructor
      · intro hlen
        exact absurd (List.length_eq_zero.mp hlen) ((splitWs_ne_nil (c :: t)).1 [])
      · intro hcon
        exact absurd hcon (by simp)
  · intro cfg download ocr d hd
    unfold tryRecoverDoc
    split
    · exact hd
    · exact hd
    · rename_i buf heq
      split
      · exact hd
      · cases hn : normalizeExtractedText (ocr buf) with
        | nil => simp only [hn, List.isEmpty_nil, if_true]; exact hd
        | cons c t =>
          simp only [hn, List.isEmpty_cons, Bool.false_eq_true, if_false]
          have hc : isJsSpace c = false := by
            have heq : normalizeExtractedText (ocr buf) =
                jsTrim (collapseNewlines (collapseHorizWs (replCrLf (ocr buf)))) := rfl
            rw [heq] at hn
            exact jsTrim_head hn
          refine ⟨rfl, ?_⟩
          constructor
          · intro hlen
            exact absurd hlen (jsSplitWs_token t hc)
          · intro hcon
            exact absurd hcon (by simp)

/-- Witness for C9 at a concrete input: recovery on the empty PDF document
(whose buffer is present but whose OCR yields nothing) preserves the
invariant. -/
theorem document_invariant_witness :
    docInvariant (tryRecoverDoc cfgDefault wDl wOcr wDocPdf) :=
  document_invariant.2 cfgDefault wDl wOcr wDocPdf ⟨rfl, by decide⟩

/-- Counterexample to C5 as stated: a quota message announcing `retry in 0s`
carries a parseable retry-in phrase with N equal to zero, whose ceiling is
zero, yet the code returns `Math.max(1, ...)` and reports one second. -/
theorem parseGeminiQuotaError_counterexample :
    parseGeminiQuotaError (strL "HTTP 429: Please retry in 0s") =
      some ⟨quotaMessage, some 1⟩ ∧
    matchRetryIn (strL "HTTP 429: Please retry in 0s") = some (strL "0", none) ∧
    ceilDigits (strL "0") none = 0 ∧
    (some (1 : Nat) : Option Nat) ≠ some 0 :=
  ⟨by rfl, by rfl, by rfl, by decide⟩

/-- A model oracle that always fails with a quota message carrying a
retry-in hint. -/
def wGen429 : Prompt → List DocumentPart → Except Str Str :=
  fun _ _ => .error (strL "429 Please retry in 50.417968038s")

/-- C5 (amended).  An error message matching the rate-limit/quota signature
(contains 429, or case-insensitively quota exceeded, too many requests, or
rate limit) is classified as RateLimited; its retryAfterSeconds is
`max 1 (ceiling of N)` for a `retry in N s` phrase, the integer N for a
`retryDelay":"Ns` field when no retry-in phrase matches, and null when
neither parses; a message not matching the signature is not classified as
RateLimited.  At the analyze endpoint a matching model failure surfaces as
the RateLimited response (HTTP 429) with that duration and no run stored,
and a non-matching failure surfaces as a server error instead.  The spec's
examples (50.417968038 gives 51; a bare rate limit message gives null but is
still RateLimited) hold. -/
theorem parseGeminiQuotaError_amended :
    (∀ m, looksLikeQuota m = false → parseGeminiQuotaError m = none) ∧
    (∀ m, looksLikeQuota m = true →
      parseGeminiQuotaError m = some ⟨quotaMessage, extractRetryAfterSeconds m⟩) ∧
    (∀ m ds fs, matchRetryIn m = some (ds, fs) →
      extractRetryAfterSeconds m = some (max 1 (ceilDigits ds fs))) ∧
    (∀ m ds, matchRetryIn m = none → matchRetryDelay m = some ds →
      extractRetryAfterSeconds m = some (natOfDigits ds)) ∧
    (∀ m, matchRetryIn m = none → matchRetryDelay m = none →
      extractRetryAfterSeconds m = none) ∧
    (∀ cfg download ocr hasApiKey retryU gen docsStore runs ids runId createdAt
        selected txt parts e,
      ids.isEmpty = false →
      (ids.filterMap (lookupStore docsStore)).isEmpty = false →
      (if cfg.enableOcrRecoveryOnAnalyze then
          recoverWeakPdfDocuments cfg download ocr
            (ids.filterMap (lookupStore docsStore))
        else ids.filterMap (lookupStore docsStore)) = selected →
      analyzeStep cfg download selected = .ok (txt, parts) →
      runOptionB hasApiKey retryU gen txt parts = .error e →
      (looksLikeQuota (errMessageOf e) = true →
        analyzeEndpoint cfg download ocr hasApiKey retryU gen docsStore runs
            (some ids) runId createdAt =
          (.rateLimited quotaMessage (extractRetryAfterSeconds (errMessageOf e)),
           runs)) ∧
      (looksLikeQuota (errMessageOf e) = false →
        analyzeEndpoint cfg download ocr hasApiKey retryU gen docsStore runs
            (some ids) runId createdAt =
          (.serverError (errMessageOf e), runs))) ∧
    parseGeminiQuotaError (strL "429 Please retry in 50.417968038s") =
      some ⟨quotaMessage, some 51⟩ ∧
    parseGeminiQuotaError (strL "Error: rate limit") =
      some ⟨quotaMessage, none⟩ := by
  refine ⟨?_, ?_, ?_, ?_, ?_, ?_, by rfl, by rfl⟩
  · intro m h
    unfold parseGeminiQuotaError
    rw [if_neg (by simp [h])]
  · intro m h
    unfold parseGeminiQuotaError
    rw [if_pos h]
  · intro m ds fs hm
    cases m with
    | nil => simp [matchRetryIn] at hm
    | cons c t =>
      simp only [extractRetryAfterSeconds, List.isEmpty_cons, Bool.false_eq_true,
        if_false, hm]
  · intro m ds hm1 hm2
    cases m with
    | nil => simp [matchRetryDelay] at hm2
    | cons c t =>
      simp only [extractRetryAfterSeconds, List.isEmpty_cons, Bool.false_eq_true,
        if_false, hm1, hm2]
  · intro m h1 h2
    cases m with
    | nil => rfl
    | cons c t =>
      simp only [extractRetryAfterSeconds, List.isEmpty_cons, Bool.false_eq_true,
        if_false, h1, h2]
  · intro cfg download ocr hasApiKey retryU gen docsStore runs ids runId
      createdAt selected txt parts e hne hsome hsel hstep hrun
    constructor
    · intro hq
      have hqe : parseGeminiQuotaError (errMessageOf e) =
          some ⟨quotaMessage, extractRetryAfterSeconds (errMessageOf e)⟩ := by
        unfold parseGeminiQuotaError
        rw [if_pos hq]
      simp only [analyzeEndpoint, hne, Bool.false_eq_true, if_false, hsome,
        hsel, hstep, hrun, hqe]
    · intro hq
      have hqe : parseGeminiQuotaError (errMessageOf e) = none := by
        unfold parseGeminiQuotaError
        rw [if_neg (by simp [hq])]
      simp only [analyzeEndpoint, hne, Bool.false_eq_true, if_false, hsome,
        hsel, hstep, hrun, hqe]

/-- Witness for C5 at a concrete input: with a model oracle failing on a
quota message, the endpoint answers RateLimited with fifty one seconds and
stores no run. -/
theorem parseGeminiQuotaError_amended_witness :
    analyzeEndpoint cfgDefault wDl wOcr true false wGen429
        [(strL "t2", wDocText50)] [] (some [strL "t2"]) (strL "r1")
        (strL "now") =
      (.rateLimited quotaMessage (some 51), []) := by
  have h := ((parseGeminiQuotaError_amended.2.2.2.2.2.1 cfgDefault wDl wOcr
    true false wGen429 [(strL "t2", wDocText50)] [] [strL "t2"] (strL "r1")
    (strL "now") [wDocText50]
    (strL "Document: t.txt\nabcdefghijklmnopqrstuvwxyzabcdefghijklmnopqrstuvwx")
    [] (.modelFailure (strL "429 Please retry in 50.417968038s"))
    (by rfl) (by rfl) (by rfl) (by rfl) (by rfl)).1 (by rfl))
  rw [h]
  rfl

end ResearchTool
